import Mathlib

/- Shallow embedding of the openpoker binary protocol codec (protocol.go):
   exact IEEE-754 binary32 rounding for the Amount type (Go float32),
   the primitive field codecs, the command/schema registry (msgTypes) and
   the frame codec (writeMessage / ReadMsg).  Byte streams are lists of
   naturals below 256; readers pass the remaining stream explicitly. -/

set_option maxRecDepth 100000

namespace OpenPoker

/- Round a rational to the nearest integer, ties to even: the IEEE-754
   default rounding used by every Go float32 operation. -/
def rne (q : ℚ) : ℤ :=
  let n := ⌊q⌋
  let r := q - (n : ℚ)
  if r < 1/2 then n
  else if 1/2 < r then n + 1
  else if Even n then n else n + 1

/- Floor of the base-2 logarithm of a positive rational. -/
def exp2f (q : ℚ) : ℤ :=
  let e0 : ℤ := (Nat.log 2 q.num.toNat : ℤ) - (Nat.log 2 q.den : ℤ)
  if (2:ℚ) ^ e0 ≤ q then e0 else e0 - 1

/- Round a positive rational to the nearest IEEE-754 binary32 value
   (round to nearest, ties to even), including the subnormal range.
   Values beyond the binary32 finite range do not occur in this protocol:
   every Amount arising on the wire stems from a 32-bit integer divided
   by 100. -/
def flPos (q : ℚ) : ℚ :=
  let e := exp2f q
  if e < -126 then ((rne (q * 2 ^ (149:ℤ)) : ℤ) : ℚ) * 2 ^ (-149 : ℤ)
  else ((rne (q * 2 ^ ((23:ℤ) - e)) : ℤ) : ℚ) * 2 ^ (e - 23)

/- Go float32 rounding of an exactly computed rational result. -/
def fl (q : ℚ) : ℚ :=
  if q = 0 then 0 else if q < 0 then - flPos (-q) else flPos q

/- The rational is exactly a nonnegative normal (or zero) binary32 value. -/
def repF32 (q : ℚ) : Prop :=
  q = 0 ∨ ∃ m : ℕ, ∃ e : ℤ, 2^23 ≤ m ∧ m < 2^24 ∧ -126 ≤ e ∧ e ≤ 127 ∧
    q = (m : ℚ) * 2 ^ (e - 23)

/- 16-bit unsigned subtraction with wraparound: the arithmetic performed
   on the running `size` counter (a Go uint16) inside ReadMsg. -/
def sub16 (a b : ℕ) : ℕ := (a + 65536 - b % 65536) % 65536

/- Big-endian bytes of a uint16 / uint32 value, as binary.Write emits them. -/
def w16 (n : ℕ) : List ℕ := [n / 256 % 256, n % 256]

def w32 (n : ℕ) : List ℕ :=
  [n / 16777216 % 256, n / 65536 % 256, n / 256 % 256, n % 256]

/- readByte: one byte from the stream; the binary.Read error on an
   exhausted source is ignored by the Go code, so the zero value is
   returned and the stream is left empty. -/
def readByteS : List ℕ → ℕ × List ℕ
  | [] => (0, [])
  | b :: s => (b, s)

/- readInt: four big-endian bytes; on a short source binary.Read consumes
   what is available, reports an error the Go code ignores, and the data
   stays zero. -/
def readIntS : List ℕ → ℕ × List ℕ
  | b0 :: b1 :: b2 :: b3 :: s => (((b0 * 256 + b1) * 256 + b2) * 256 + b3, s)
  | _ => (0, [])

/- readString: a length byte then that many payload bytes (zero-filled if
   the source runs short, errors again ignored).  The consumed count is
   uint16(size + 1) where size + 1 is computed in uint8, hence the mod 256:
   a length byte of 255 yields a consumed count of 0. -/
def readStringS : List ℕ → List ℕ × ℕ × List ℕ
  | [] => ([], 1, [])
  | sz :: t =>
      (t.take sz ++ List.replicate (sz - t.length) 0, (sz + 1) % 256, t.drop sz)

/- Cards.read: a count byte then count (rank, suit) byte pairs. -/
def readPairs : ℕ → List ℕ → List (ℕ × ℕ) × List ℕ
  | 0, s => ([], s)
  | n + 1, s =>
      let (a, s1) := readByteS s
      let (b, s2) := readByteS s1
      let (ps, s3) := readPairs n s2
      ((a, b) :: ps, s3)

def readCardsS (s : List ℕ) : List (ℕ × ℕ) × ℕ × List ℕ :=
  let (n, s1) := readByteS s
  let (ps, s2) := readPairs n s1
  (ps, 2 * n + 1, s2)

/- The protocol's field types: one constructor per Go field type that
   appears in a registered message struct. -/
inductive FType
  | cmd | small | big | id | amount | text
  | op | limitType | gameStage | playerState | gameType | seq | suit
  | cards
  deriving DecidableEq

/- A decoded field value.  Ids and Bigs are carried as their 32-bit wire
   pattern; an Amount is the exact rational value of the Go float32. -/
inductive FVal
  | cmd (n : ℕ) | small (n : ℕ) | big (n : ℕ) | id (n : ℕ)
  | amount (q : ℚ) | text (bs : List ℕ)
  | op (n : ℕ) | limitType (n : ℕ) | gameStage (n : ℕ) | playerState (n : ℕ)
  | gameType (n : ℕ) | seq (n : ℕ) | suit (n : ℕ)
  | cards (cs : List (ℕ × ℕ))
  deriving DecidableEq

/- Go float32 → uint32 conversion: truncation toward zero.  The Go spec
   leaves out-of-range conversions undefined; all theorems below restrict
   to the in-range case. -/
def f32trunc (q : ℚ) : ℕ := (⌊q⌋).toNat

/- Amount.write: Big(n * 100).write, i.e. the float32 product n * 100
   truncated to uint32 and written as four big-endian bytes. -/
def encodeAmount (q : ℚ) : List ℕ := w32 (f32trunc (fl (q * 100)))

/- Amount.read: Amount(readInt(r)) / 100 - the uint32 is converted to
   float32 and divided by 100 in float32 arithmetic. -/
def decodeAmount (s : List ℕ) : ℚ := fl (fl (((readIntS s).1 : ℚ)) / 100)

/- Field decoding: dispatch of the per-type read methods.  Each returns
   the value, the consumed-byte count the Go method reports (a uint16),
   and the remaining stream. -/
def fread : FType → List ℕ → FVal × ℕ × List ℕ
  | .cmd, s => let (b, s1) := readByteS s; (.cmd b, 1, s1)
  | .small, s => let (b, s1) := readByteS s; (.small b, 1, s1)
  | .big, s => let (n, s1) := readIntS s; (.big n, 4, s1)
  | .id, s => let (n, s1) := readIntS s; (.id n, 4, s1)
  | .amount, s =>
      let (n, s1) := readIntS s; (.amount (fl (fl ((n : ℚ)) / 100)), 4, s1)
  | .text, s => let (bs, n, s1) := readStringS s; (.text bs, n, s1)
  | .op, s => let (b, s1) := readByteS s; (.op b, 1, s1)
  | .limitType, s => let (b, s1) := readByteS s; (.limitType b, 1, s1)
  | .gameStage, s => let (b, s1) := readByteS s; (.gameStage b, 1, s1)
  | .playerState, s => let (b, s1) := readByteS s; (.playerState b, 1, s1)
  | .gameType, s => let (b, s1) := readByteS s; (.gameType b, 1, s1)
  | .seq, s => let (b, s1) := readByteS s; (.seq b, 1, s1)
  | .suit, s => let (b, s1) := readByteS s; (.suit b, 1, s1)
  | .cards, s => let (cs, n, s1) := readCardsS s; (.cards cs, n, s1)

/- Field encoding: the per-type write methods.  Byte-sized values and the
   length prefix of Text are truncated to uint8 exactly as Go's
   conversions do; Text.write then emits ALL payload bytes regardless.
   The source defines no write methods for GameStage, PlayerState, Seq,
   Suit and Cards (those fields occur only in inbound messages); their
   encodings here mirror the corresponding read methods and the one-byte /
   count-prefixed wire layout every other byte-sized type uses. -/
def fieldWrite : FVal → List ℕ
  | .cmd n => [n % 256]
  | .small n => [n % 256]
  | .big n => w32 n
  | .id n => w32 n
  | .amount q => encodeAmount q
  | .text bs => (bs.length % 256) :: bs
  | .op n => [n % 256]
  | .limitType n => [n % 256]
  | .gameStage n => [n % 256]
  | .playerState n => [n % 256]
  | .gameType n => [n % 256]
  | .seq n => [n % 256]
  | .suit n => [n % 256]
  | .cards cs => (cs.length % 256) :: cs.flatMap (fun p => [p.1 % 256, p.2 % 256])

/- The msgTypes registry as an association list: command tag → ordered
   field-type list of the registered message struct (struct fields in
   declaration order, which is how the reflection loop visits them).
   Tags absent from the Go map (LOGIN = 1, PLAYER_INFO = 19, ...) have no
   entry. -/
def registry : List (ℕ × List FType) :=
  [(0,   [.cmd, .big]),                                     -- GOOD: MsgGood
   (255, [.cmd, .small]),                                   -- BAD: MsgBad
   (31,  [.id]),                                            -- YOU_ARE: MsgYouAre
   (39,  [.id]),                                            -- YOUR_GAME: MsgYourGame
   (30,  [.id, .small, .playerState, .id, .amount]),        -- SEAT_INFO: MsgSeatInfo
   (18,  [.id, .text, .gameType, .limitType, .amount,
          .amount, .big, .big, .big, .big]),                -- GAME_INFO: MsgGameInfo
   (44,  [.id, .id, .small, .amount]),                      -- NOTIFY_JOIN
   (25,  [.id]),                                            -- NOTIFY_CANCEL_GAME
   (45,  [.id, .id]),                                       -- NOTIFY_LEAVE
   (23,  [.id]),                                            -- NOTIFY_START_GAME
   (35,  [.id, .small]),                                    -- NOTIFY_BUTTON
   (36,  [.id, .small]),                                    -- NOTIFY_SB
   (20,  [.id, .amount, .amount, .amount]),                 -- BET_REQ
   (33,  [.amount, .amount]),                               -- BALANCE
   (42,  [.id, .id, .amount, .amount]),                     -- NOTIFY_RAISE
   (37,  [.id, .small]),                                    -- NOTIFY_BB
   (21,  [.id, .id, .seq, .suit]),                          -- NOTIFY_DRAW
   (22,  [.id, .seq, .suit]),                               -- NOTIFY_SHARED
   (27,  [.id, .id, .small, .small, .small]),               -- NOTIFY_HAND
   (24,  [.id]),                                            -- NOTIFY_END_GAME
   (43,  [.id, .id, .text]),                                -- NOTIFY_CHAT
   (29,  [.id, .gameStage]),                                -- GAME_STAGE
   (40,  [.id, .id, .cards]),                               -- SHOW_CARDS
   (26,  [.id, .id, .amount])]                              -- NOTIFY_WIN

def msgTypes (t : ℕ) : Option (List FType) := registry.lookup t

/- Decode errors ReadMsg can report. -/
inductive DecodeError
  | ioError | unknownCmd (c : ℕ) | tooShort (c : ℕ) | tooLong (c : ℕ)
  deriving DecidableEq

/- The field loop of ReadMsg, with the uint16 `size` counter threaded
   through.  The Go code guards `if size < 0` after the uint16 subtraction;
   a uint16 (like a ℕ here) is never negative, so the branch mirrors the
   source but cannot fire. -/
def readLoop (c : ℕ) : List FType → ℕ → List ℕ →
    Option DecodeError × List FVal × ℕ × List ℕ
  | [], size, s => (none, [], size, s)
  | ft :: fts, size, s =>
      let (v, n, s1) := fread ft s
      let size1 := sub16 size n
      if size1 < 0 then (some (.tooShort c), [v], size1, s1)
      else
        let (e, vs, size2, s2) := readLoop c fts size1 s1
        (e, v :: vs, size2, s2)

/- Field decoding without the size counter: values, total reported
   consumed count, remaining stream. -/
def readFields : List FType → List ℕ → List FVal × ℕ × List ℕ
  | [], s => ([], 0, s)
  | ft :: fts, s =>
      let (v, n, s1) := fread ft s
      let (vs, m, s2) := readFields fts s1
      (v :: vs, n + m, s2)

/- ReadMsg: read the 2-byte big-endian length (the only read whose error
   the Go code propagates), the command tag, resolve the schema, run the
   field loop, then apply the leftover-size check.  Returns the Go result
   triple (err, cmd, msg) plus the final stream position. -/
def ReadMsg (s : List ℕ) : (Option DecodeError × ℕ × Option (List FVal)) × List ℕ :=
  match s with
  | b0 :: b1 :: s0 =>
      let size0 := b0 * 256 + b1
      let (c, s1) := readByteS s0
      let size1 := sub16 size0 1
      match msgTypes c with
      | none => ((some (.unknownCmd c), c, none), s1)
      | some fts =>
          let (e, vs, size2, s2) := readLoop c fts size1 s1
          match e with
          | some err => ((some err, c, none), s2)
          | none =>
              if size2 > 0 then ((some (.tooLong c), c, none), s2)
              else ((none, c, some vs), s2)
  | _ => ((some .ioError, 0, none), [])

/- writeMessage: serialize the body (command tag first, then the fields)
   into a buffer and emit uint16(buffer length) big-endian followed by the
   buffer. -/
def writeMessage (body : List FVal) : List ℕ :=
  let buf := body.flatMap fieldWrite
  w16 buf.length ++ buf

/- WriteLogin(w, nick, pass) = writeMessage(w, LOGIN, nick, pass). -/
def WriteLogin (nick pass : List ℕ) : List ℕ :=
  writeMessage [.cmd 1, .text nick, .text pass]

/- An Amount value for which the float32 encode/decode pair is exact:
   the value is itself a binary32 value and its hundredfold is an integer
   below 2^32 that is also exactly a binary32 value (so the float32
   multiplication by 100 commits no rounding). -/
def amountOk (q : ℚ) : Prop :=
  repF32 q ∧ ∃ k : ℕ, q * 100 = (k : ℚ) ∧ repF32 (k : ℚ) ∧ k < 2^32

/- Domain of one field value for the round-trip statement: byte-sized
   values below 256, 32-bit values below 2^32, text of at most 254 bytes
   (a 255-byte text trips the uint8 overflow in readString's consumed
   count), amounts in the exactly-encodable domain, card lists of at most
   255 in-range pairs. -/
def validVal : FType → FVal → Prop
  | .cmd, .cmd n => n < 256
  | .small, .small n => n < 256
  | .big, .big n => n < 2^32
  | .id, .id n => n < 2^32
  | .amount, .amount q => amountOk q
  | .text, .text bs => bs.length ≤ 254 ∧ ∀ b ∈ bs, b < 256
  | .op, .op n => n < 256
  | .limitType, .limitType n => n < 256
  | .gameStage, .gameStage n => n < 256
  | .playerState, .playerState n => n < 256
  | .gameType, .gameType n => n < 256
  | .seq, .seq n => n < 256
  | .suit, .suit n => n < 256
  | .cards, .cards cs => cs.length ≤ 255 ∧ ∀ p ∈ cs, p.1 < 256 ∧ p.2 < 256
  | _, _ => False

def validVals : List FType → List FVal → Prop
  | [], [] => True
  | ft :: fts, v :: vs => validVal ft v ∧ validVals fts vs
  | _, _ => False

theorem rne_intCast (n : ℤ) : rne (n : ℚ) = n := by
  norm_num [rne]

theorem rne_eq_low (q : ℚ) (n : ℤ) (h1 : (n:ℚ) ≤ q) (h2 : q < (n:ℚ) + 1/2) :
    rne q = n := by
  have hf : ⌊q⌋ = n := Int.floor_eq_iff.mpr ⟨h1, by linarith⟩
  have hr : q - ((⌊q⌋ : ℤ) : ℚ) < 1/2 := by rw [hf]; linarith
  simp only [rne, if_pos hr]
  exact hf

theorem rne_eq_high (q : ℚ) (n : ℤ) (h1 : (n:ℚ) + 1/2 < q) (h2 : q < (n:ℚ) + 1) :
    rne q = n + 1 := by
  have hf : ⌊q⌋ = n := Int.floor_eq_iff.mpr ⟨by linarith, by linarith⟩
  have hr : ¬ (q - ((⌊q⌋ : ℤ) : ℚ) < 1/2) := by rw [hf]; linarith
  have hr2 : 1/2 < q - ((⌊q⌋ : ℤ) : ℚ) := by rw [hf]; linarith
  simp only [rne, if_neg hr, if_pos hr2]
  omega

theorem exp2f_spec (q : ℚ) (hq : 0 < q) :
    (2:ℚ) ^ (exp2f q) ≤ q ∧ q < (2:ℚ) ^ (exp2f q + 1) := by
  have hnum : 0 < q.num := Rat.num_pos.mpr hq
  set a : ℕ := q.num.toNat with ha_def
  set b : ℕ := q.den with hb_def
  have ha : 0 < a := by omega
  have hb : 0 < b := q.pos
  have hq_eq : q = (a : ℚ) / (b : ℚ) := by
    have hca : ((a : ℕ) : ℚ) = ((q.num : ℤ) : ℚ) := by
      rw [ha_def]
      exact_mod_cast congrArg (fun z : ℤ => (z : ℚ)) (Int.toNat_of_nonneg (le_of_lt hnum))
    rw [hca, hb_def]
    exact (Rat.num_div_den q).symm
  set la : ℕ := Nat.log 2 a with hla_def
  set lb : ℕ := Nat.log 2 b with hlb_def
  have h1a : 2^la ≤ a := Nat.pow_log_le_self 2 (by omega)
  have h2a : a < 2^(la+1) := Nat.lt_pow_succ_log_self (by norm_num) a
  have h1b : 2^lb ≤ b := Nat.pow_log_le_self 2 (by omega)
  have h2b : b < 2^(lb+1) := Nat.lt_pow_succ_log_self (by norm_num) b
  have hbq : (0:ℚ) < (b:ℚ) := by exact_mod_cast hb
  -- cast the log bounds to ℚ
  have c1a : (2:ℚ)^(la:ℕ) ≤ (a:ℚ) := by exact_mod_cast h1a
  have c2a : (a:ℚ) < 2^(la+1 : ℕ) := by exact_mod_cast h2a
  have c1b : (2:ℚ)^(lb:ℕ) ≤ (b:ℚ) := by exact_mod_cast h1b
  have c2b : (b:ℚ) < 2^(lb+1 : ℕ) := by exact_mod_cast h2b
  have hz : ∀ n : ℕ, (2:ℚ) ^ (n:ℤ) = 2 ^ n := fun n => zpow_natCast 2 n
  -- upper bound: q < 2 ^ ((la:ℤ) - lb + 1)
  have hupper : q < (2:ℚ) ^ ((la:ℤ) - lb + 1) := by
    have he : (2:ℚ) ^ ((la:ℤ) - lb + 1) = 2 ^ (la+1 : ℕ) / 2 ^ (lb : ℕ) := by
      rw [show ((la:ℤ) - lb + 1) = ((la+1 : ℕ) : ℤ) - ((lb : ℕ) : ℤ) by push_cast; ring]
      rw [zpow_sub₀ (by norm_num : (2:ℚ) ≠ 0), hz, hz]
    rw [he, hq_eq, div_lt_div_iff₀ hbq (by positivity)]
    calc (a:ℚ) * 2 ^ (lb:ℕ) < 2 ^ (la+1 : ℕ) * 2 ^ (lb:ℕ) := by
          apply mul_lt_mul_of_pos_right c2a (by positivity)
      _ ≤ 2 ^ (la+1 : ℕ) * (b:ℚ) := by
          apply mul_le_mul_of_nonneg_left c1b (by positivity)
  -- lower bound: 2 ^ ((la:ℤ) - lb - 1) < q
  have hlower : (2:ℚ) ^ ((la:ℤ) - lb - 1) < q := by
    have he : (2:ℚ) ^ ((la:ℤ) - lb - 1) = 2 ^ (la : ℕ) / 2 ^ (lb+1 : ℕ) := by
      rw [show ((la:ℤ) - lb - 1) = ((la : ℕ) : ℤ) - ((lb+1 : ℕ) : ℤ) by push_cast; ring]
      rw [zpow_sub₀ (by norm_num : (2:ℚ) ≠ 0), hz, hz]
    rw [he, hq_eq, div_lt_div_iff₀ (by positivity) hbq]
    calc (2:ℚ) ^ (la:ℕ) * (b:ℚ) < 2 ^ (la:ℕ) * 2 ^ (lb+1 : ℕ) := by
          apply mul_lt_mul_of_pos_left c2b (by positivity)
      _ ≤ (a:ℚ) * 2 ^ (lb+1 : ℕ) := by
          apply mul_le_mul_of_nonneg_right c1a (by positivity)
  unfold exp2f
  rw [← ha_def, ← hb_def, ← hla_def, ← hlb_def]
  by_cases hcase : (2:ℚ) ^ ((la:ℤ) - lb) ≤ q
  · rw [if_pos hcase]
    exact ⟨hcase, hupper⟩
  · rw [if_neg hcase]
    constructor
    · exact le_of_lt hlower
    · have : q < (2:ℚ) ^ ((la:ℤ) - lb) := lt_of_not_le hcase
      calc q < (2:ℚ) ^ ((la:ℤ) - lb) := this
        _ = (2:ℚ) ^ ((la:ℤ) - lb - 1 + 1) := by ring_nf

theorem exp2f_uniq (q : ℚ) (e : ℤ) (hq : 0 < q)
    (h1 : (2:ℚ)^e ≤ q) (h2 : q < 2^(e+1)) : exp2f q = e := by
  obtain ⟨s1, s2⟩ := exp2f_spec q hq
  by_contra hne
  rcases lt_or_gt_of_ne hne with hlt | hgt
  · have hle : exp2f q + 1 ≤ e := by omega
    have : (2:ℚ) ^ (exp2f q + 1) ≤ 2 ^ e :=
      zpow_le_zpow_right₀ (by norm_num) hle
    linarith
  · have hle : e + 1 ≤ exp2f q := by omega
    have : (2:ℚ) ^ (e + 1) ≤ 2 ^ (exp2f q) :=
      zpow_le_zpow_right₀ (by norm_num) hle
    linarith

theorem fl_eq_of (q : ℚ) (e m : ℤ) (h0 : 0 < q) (h1 : (2:ℚ)^e ≤ q)
    (h2 : q < 2^(e+1)) (h3 : -126 ≤ e)
    (hm : rne (q * 2 ^ ((23:ℤ) - e)) = m) :
    fl q = (m : ℚ) * 2 ^ (e - 23) := by
  unfold fl
  rw [if_neg (ne_of_gt h0), if_neg (not_lt.mpr (le_of_lt h0))]
  unfold flPos
  rw [exp2f_uniq q e h0 h1 h2, if_neg (by omega), hm]

theorem fl_exact (q : ℚ) (h : repF32 q) : fl q = q := by
  rcases h with rfl | ⟨m, e, h23, h24, hmin, hmax, rfl⟩
  · simp [fl]
  · have hm0 : (0:ℚ) < (m:ℚ) := by
      have : 0 < m := by positivity
      exact_mod_cast this
    have hp : (0:ℚ) < (2:ℚ) ^ (e - 23) := by positivity
    have hq0 : 0 < (m:ℚ) * 2 ^ (e - 23) := mul_pos hm0 hp
    have c23 : (2:ℚ)^(23:ℕ) ≤ (m:ℚ) := by exact_mod_cast h23
    have c24 : (m:ℚ) < 2^(24:ℕ) := by exact_mod_cast h24
    have h1 : (2:ℚ)^e ≤ (m:ℚ) * 2 ^ (e - 23) := by
      have : (2:ℚ)^e = 2^(23:ℤ) * 2^(e-23) := by
        rw [← zpow_add₀ (by norm_num : (2:ℚ) ≠ 0)]; ring_nf
      rw [this]
      apply mul_le_mul_of_nonneg_right _ (le_of_lt hp)
      rw [show ((23:ℤ)) = ((23:ℕ):ℤ) by norm_num, zpow_natCast]
      exact c23
    have h2 : (m:ℚ) * 2 ^ (e - 23) < 2^(e+1) := by
      have : (2:ℚ)^(e+1) = 2^(24:ℤ) * 2^(e-23) := by
        rw [← zpow_add₀ (by norm_num : (2:ℚ) ≠ 0)]; ring_nf
      rw [this]
      apply mul_lt_mul_of_pos_right _ hp
      rw [show ((24:ℤ)) = ((24:ℕ):ℤ) by norm_num, zpow_natCast]
      exact c24
    have hm : rne ((m:ℚ) * 2 ^ (e - 23) * 2 ^ ((23:ℤ) - e)) = (m:ℤ) := by
      have harg : (m:ℚ) * 2 ^ (e - 23) * 2 ^ ((23:ℤ) - e) = ((m:ℤ):ℚ) := by
        rw [mul_assoc, ← zpow_add₀ (by norm_num : (2:ℚ) ≠ 0)]
        rw [show (e - 23 + ((23:ℤ) - e)) = 0 by ring, zpow_zero, mul_one]
        push_cast
        ring
      rw [harg, rne_intCast]
    have := fl_eq_of ((m:ℚ) * 2 ^ (e - 23)) e (m:ℤ) hq0 h1 h2 hmin hm
    rw [this]
    push_cast
    ring


theorem sub16_eq (a b : ℕ) (h1 : b ≤ a) (h2 : a ≤ 65535) : sub16 a b = a - b := by
  unfold sub16
  have hb : b % 65536 = b := Nat.mod_eq_of_lt (by omega)
  rw [hb]
  omega

theorem readIntS_w32 (n : ℕ) (h : n < 2^32) (r : List ℕ) :
    readIntS (w32 n ++ r) = (n, r) := by
  simp only [w32, List.cons_append, List.nil_append, readIntS, Prod.mk.injEq]
  exact ⟨by omega, trivial⟩

theorem readStringS_write (bs r : List ℕ) (h : bs.length ≤ 254) :
    readStringS ((bs.length % 256) :: (bs ++ r)) = (bs, bs.length + 1, r) := by
  have hm : bs.length % 256 = bs.length := Nat.mod_eq_of_lt (by omega)
  have h1 : (bs ++ r).take bs.length = bs := List.take_left bs r
  have h2 : (bs ++ r).drop bs.length = r := List.drop_left bs r
  have h3 : bs.length - (bs ++ r).length = 0 := by simp [List.length_append]
  have h4 : (bs.length + 1) % 256 = bs.length + 1 := Nat.mod_eq_of_lt (by omega)
  simp only [readStringS, hm, h1, h2, h3, h4, List.replicate_zero, List.append_nil]

theorem readPairs_write (cs : List (ℕ × ℕ)) (h : ∀ p ∈ cs, p.1 < 256 ∧ p.2 < 256)
    (r : List ℕ) :
    readPairs cs.length (cs.flatMap (fun p => [p.1 % 256, p.2 % 256]) ++ r) = (cs, r) := by
  induction cs with
  | nil => simp [readPairs]
  | cons p cs ih =>
      obtain ⟨hp1, hp2⟩ := h p (by simp)
      have hm1 : p.1 % 256 = p.1 := Nat.mod_eq_of_lt hp1
      have hm2 : p.2 % 256 = p.2 := Nat.mod_eq_of_lt hp2
      have ih2 := ih (fun q hq => h q (by simp [hq]))
      simp only [List.flatMap_cons, List.cons_append, List.nil_append,
        List.length_cons, List.append_assoc, readPairs, readByteS, ih2, hm1, hm2]

theorem readCardsS_write (cs : List (ℕ × ℕ)) (h255 : cs.length ≤ 255)
    (h : ∀ p ∈ cs, p.1 < 256 ∧ p.2 < 256) (r : List ℕ) :
    readCardsS ((cs.length % 256) :: (cs.flatMap (fun p => [p.1 % 256, p.2 % 256]) ++ r))
      = (cs, 2 * cs.length + 1, r) := by
  have hm : cs.length % 256 = cs.length := Nat.mod_eq_of_lt (by omega)
  simp only [readCardsS, readByteS, hm, readPairs_write cs h r]

theorem flat_pairs_length (cs : List (ℕ × ℕ)) :
    (cs.flatMap (fun p => [p.1 % 256, p.2 % 256])).length = 2 * cs.length := by
  induction cs with
  | nil => simp
  | cons p cs ih => simp [ih]; omega

/- The Amount codec pair is exact on the amountOk domain: the product
   q * 100 is the integer k with no float32 rounding, truncation keeps it,
   and decoding divides k back to q exactly. -/
theorem amount_fread (q : ℚ) (h : amountOk q) (r : List ℕ) :
    fread .amount (encodeAmount q ++ r) = (.amount q, 4, r) := by
  obtain ⟨hrep, k, hk, hkrep, hk32⟩ := h
  have henc : encodeAmount q = w32 k := by
    unfold encodeAmount f32trunc
    rw [hk, fl_exact _ hkrep, Int.floor_natCast, Int.toNat_natCast]
  have hdiv : ((k : ℚ)) / 100 = q := by
    rw [← hk]
    field_simp
  rw [henc]
  simp only [fread, readIntS_w32 k hk32 r]
  rw [fl_exact _ hkrep, hdiv, fl_exact _ hrep]

theorem fread_fieldWrite (ft : FType) (v : FVal) (h : validVal ft v) (r : List ℕ) :
    fread ft (fieldWrite v ++ r) = (v, (fieldWrite v).length, r) := by
  cases ft <;> cases v <;> try exact h.elim
  case cmd.cmd n =>
    simp [fread, fieldWrite, readByteS, Nat.mod_eq_of_lt h]
  case small.small n =>
    simp [fread, fieldWrite, readByteS, Nat.mod_eq_of_lt h]
  case big.big n =>
    have hr := readIntS_w32 n h r
    simp only [fieldWrite, fread, hr]
    simp [w32]
  case id.id n =>
    have hr := readIntS_w32 n h r
    simp only [fieldWrite, fread, hr]
    simp [w32]
  case amount.amount q =>
    have ha := amount_fread q h r
    simp only [fieldWrite]
    rw [ha]
    rfl
  case text.text bs =>
    obtain ⟨hlen, hbytes⟩ := h
    simp only [fieldWrite, List.cons_append, fread, readStringS_write bs r hlen,
      List.length_cons]
  case op.op n =>
    simp [fread, fieldWrite, readByteS, Nat.mod_eq_of_lt h]
  case limitType.limitType n =>
    simp [fread, fieldWrite, readByteS, Nat.mod_eq_of_lt h]
  case gameStage.gameStage n =>
    simp [fread, fieldWrite, readByteS, Nat.mod_eq_of_lt h]
  case playerState.playerState n =>
    simp [fread, fieldWrite, readByteS, Nat.mod_eq_of_lt h]
  case gameType.gameType n =>
    simp [fread, fieldWrite, readByteS, Nat.mod_eq_of_lt h]
  case seq.seq n =>
    simp [fread, fieldWrite, readByteS, Nat.mod_eq_of_lt h]
  case suit.suit n =>
    simp [fread, fieldWrite, readByteS, Nat.mod_eq_of_lt h]
  case cards.cards cs =>
    obtain ⟨hlen, hp⟩ := h
    simp only [fieldWrite, List.cons_append, fread, readCardsS_write cs hlen hp r,
      List.length_cons, flat_pairs_length]

theorem fieldWrite_length_le (ft : FType) (v : FVal) (h : validVal ft v) :
    (fieldWrite v).length ≤ 511 := by
  cases ft <;> cases v <;> try exact h.elim
  case text.text bs =>
    simp only [fieldWrite, List.length_cons]
    have := h.1
    omega
  case cards.cards cs =>
    simp only [fieldWrite, List.length_cons, flat_pairs_length]
    have := h.1
    omega
  all_goals simp [fieldWrite, w32, encodeAmount]

theorem validVals_length (fts : List FType) (vs : List FVal) (h : validVals fts vs) :
    vs.length = fts.length := by
  induction fts generalizing vs with
  | nil => cases vs with
    | nil => rfl
    | cons v vs => exact h.elim
  | cons ft fts ih =>
      cases vs with
      | nil => exact h.elim
      | cons v vs => simp [ih vs h.2]

theorem flat_length_le (fts : List FType) (vs : List FVal) (h : validVals fts vs) :
    (vs.flatMap fieldWrite).length ≤ 511 * vs.length := by
  induction fts generalizing vs with
  | nil => cases vs with
    | nil => simp
    | cons v vs => exact h.elim
  | cons ft fts ih =>
      cases vs with
      | nil => simp
      | cons v vs =>
          have h1 := fieldWrite_length_le ft v h.1
          have h2 := ih vs h.2
          simp only [List.flatMap_cons, List.length_append, List.length_cons]
          omega

theorem readFields_append (fts : List FType) (vs : List FVal) (h : validVals fts vs)
    (r : List ℕ) :
    readFields fts (vs.flatMap fieldWrite ++ r)
      = (vs, (vs.flatMap fieldWrite).length, r) := by
  induction fts generalizing vs r with
  | nil =>
      cases vs with
      | nil => simp [readFields]
      | cons v vs => exact h.elim
  | cons ft fts ih =>
      cases vs with
      | nil => exact h.elim
      | cons v vs =>
          obtain ⟨h1, h2⟩ := h
          rw [List.flatMap_cons, List.append_assoc]
          simp only [readFields, fread_fieldWrite ft v h1, ih vs h2 r,
            List.length_append]

theorem readLoop_none (c : ℕ) (fts : List FType) (size : ℕ) (s : List ℕ) :
    (readLoop c fts size s).1 = none := by
  induction fts generalizing size s with
  | nil => simp [readLoop]
  | cons ft fts ih =>
      rcases hf : fread ft s with ⟨v, rest⟩
      rcases rest with ⟨n, s1⟩
      simp [readLoop, hf, ih]

theorem readLoop_readFields (c : ℕ) (fts : List FType) (size : ℕ) (s : List ℕ)
    (h1 : (readFields fts s).2.1 ≤ size) (h2 : size ≤ 65535) :
    readLoop c fts size s =
      (none, (readFields fts s).1, size - (readFields fts s).2.1,
        (readFields fts s).2.2) := by
  induction fts generalizing size s with
  | nil => simp [readLoop, readFields]
  | cons ft fts ih =>
      rcases hf : fread ft s with ⟨v, rest⟩
      rcases rest with ⟨n, s1⟩
      rcases hg : readFields fts s1 with ⟨vs, rest2⟩
      rcases rest2 with ⟨m, s2⟩
      have htot : readFields (ft :: fts) s = (v :: vs, n + m, s2) := by
        simp [readFields, hf, hg]
      replace h1 : n + m ≤ size := by rw [htot] at h1; exact h1
      have hs : sub16 size n = size - n := sub16_eq size n (by omega) h2
      have ihh : readLoop c fts (size - n) s1 = (none, vs, size - n - m, s2) := by
        have := ih (size - n) s1 (by rw [hg]; show m ≤ size - n; omega) (by omega)
        rw [hg] at this
        exact this
      rw [htot]
      show readLoop c (ft :: fts) size s = (none, v :: vs, size - (n + m), s2)
      have hnm : size - n - m = size - (n + m) := by omega
      simp only [readLoop, hf, hs, ihh, Nat.not_lt_zero, if_false, hnm]

theorem lookup_mem (l : List (ℕ × List FType)) (t : ℕ) (fts : List FType)
    (h : l.lookup t = some fts) : (t, fts) ∈ l := by
  induction l with
  | nil => simp [List.lookup] at h
  | cons p l ih =>
      rcases p with ⟨a, b⟩
      rw [List.lookup] at h
      cases hbe : (t == a) with
      | true =>
          simp only [hbe] at h
          injection h with h
          have hta : t = a := by simpa using hbe
          subst hta
          subst h
          exact List.mem_cons_self _ _
      | false =>
          simp only [hbe] at h
          exact List.mem_cons_of_mem _ (ih h)

theorem msgTypes_meta (t : ℕ) (fts : List FType) (h : msgTypes t = some fts) :
    t < 256 ∧ fts.length ≤ 10 := by
  have hmem : (t, fts) ∈ registry := lookup_mem registry t fts h
  have hall : ∀ p ∈ registry, p.1 < 256 ∧ p.2.length ≤ 10 := by decide
  exact hall (t, fts) hmem

theorem w16_parse (n : ℕ) (h : n ≤ 65535) : n / 256 % 256 * 256 + n % 256 = n := by
  omega

/- Decoding any frame whose tag has no registry entry: the unknown-command
   error is returned, carrying the tag, with the stream positioned right
   after the tag byte. -/
theorem readMsg_unknown (d t : ℕ) (payload : List ℕ) (h : msgTypes t = none) :
    ReadMsg (w16 d ++ t :: payload) = ((some (.unknownCmd t), t, none), payload) := by
  simp [ReadMsg, w16, readByteS, h]

/- Decoding a frame whose declared length exceeds the tag byte plus the
   consumed-count total of its schema's fields: the leftover check fires
   and the too-long error is returned. -/
theorem readMsg_long (t : ℕ) (fts : List FType) (s : List ℕ) (declared : ℕ)
    (hreg : msgTypes t = some fts) (hd : declared ≤ 65535)
    (hlt : (readFields fts s).2.1 + 1 < declared) :
    ReadMsg (w16 declared ++ t :: s)
      = ((some (.tooLong t), t, none), (readFields fts s).2.2) := by
  have hsub : sub16 declared 1 = declared - 1 := sub16_eq declared 1 (by omega) hd
  have hloop := readLoop_readFields t fts (declared - 1) s (by omega) (by omega)
  simp only [ReadMsg, w16, List.cons_append, List.nil_append, readByteS,
    w16_parse declared hd, hsub, hreg, hloop]
  rw [if_pos (by omega)]

/- The round-trip core: writeMessage of a tag plus valid field values
   decodes back to exactly that tag and those values, consuming the whole
   frame. -/
theorem readMsg_writeMessage (t : ℕ) (fts : List FType) (vs : List FVal)
    (hreg : msgTypes t = some fts) (hv : validVals fts vs) :
    ReadMsg (writeMessage (.cmd t :: vs)) = ((none, t, some vs), []) := by
  obtain ⟨ht, hlen⟩ := msgTypes_meta t fts hreg
  have hvlen : vs.length = fts.length := validVals_length fts vs hv
  have hflat : (vs.flatMap fieldWrite).length ≤ 511 * vs.length :=
    flat_length_le fts vs hv
  set flat := vs.flatMap fieldWrite with hflat_def
  have hL : 1 + flat.length ≤ 65535 := by
    have : vs.length ≤ 10 := by omega
    have : flat.length ≤ 5110 := by
      calc flat.length ≤ 511 * vs.length := hflat
        _ ≤ 511 * 10 := by omega
    omega
  have hbody : writeMessage (.cmd t :: vs) = w16 (1 + flat.length) ++ (t :: flat) := by
    unfold writeMessage
    simp only [List.flatMap_cons, fieldWrite, ← hflat_def]
    rw [Nat.mod_eq_of_lt ht]
    simp only [List.cons_append, List.nil_append, List.length_cons]
    rw [Nat.add_comm flat.length 1]
  rw [hbody]
  have hfields : readFields fts (flat ++ []) = (vs, flat.length, []) := by
    rw [hflat_def]
    exact readFields_append fts vs hv []
  rw [List.append_nil] at hfields
  have hsub : sub16 (1 + flat.length) 1 = flat.length :=
    by rw [sub16_eq (1 + flat.length) 1 (by omega) hL]; omega
  have hloop := readLoop_readFields t fts flat.length flat
    (by rw [hfields]) (by omega)
  rw [hfields] at hloop
  simp only [ReadMsg, w16, List.cons_append, List.nil_append, readByteS,
    w16_parse (1 + flat.length) hL, hsub, hreg, hloop]
  simp

/- Concrete binary32 facts used by the Amount theorems. -/

theorem fl_1999_100 : fl (1999/100) = 10480517/524288 := by
  have h := fl_eq_of (1999/100) 4 10480517 (by norm_num) (by norm_num) (by norm_num)
    (by norm_num) (rne_eq_low _ 10480517 (by norm_num) (by norm_num))
  rw [h]
  norm_num

theorem fl_1999_100_mul100 : fl (10480517/524288 * 100) = 1999 := by
  have h := fl_eq_of (10480517/524288 * 100) 10 16375808 (by norm_num) (by norm_num)
    (by norm_num) (by norm_num)
    (by rw [rne_eq_high _ 16375807 (by norm_num) (by norm_num)]; norm_num)
  rw [h]
  norm_num

theorem repF32_1999 : repF32 (1999 : ℚ) := by
  refine Or.inr ⟨16375808, 10, by norm_num, by norm_num, by norm_num, by norm_num, ?_⟩
  norm_num

theorem amount_roundTrip (q : ℚ) (h : amountOk q) :
    decodeAmount (encodeAmount q) = q := by
  obtain ⟨hrep, k, hk, hkrep, hk32⟩ := h
  have henc : encodeAmount q = w32 k := by
    unfold encodeAmount f32trunc
    rw [hk, fl_exact _ hkrep, Int.floor_natCast, Int.toNat_natCast]
  have hread : readIntS (w32 k) = (k, []) := by
    have := readIntS_w32 k hk32 []
    rwa [List.append_nil] at this
  have hdiv : ((k : ℚ)) / 100 = q := by
    rw [← hk]
    field_simp
  rw [henc]
  unfold decodeAmount
  rw [hread, fl_exact _ hkrep, hdiv, fl_exact _ hrep]

theorem roundTrip_fl1999 :
    decodeAmount (encodeAmount (fl (1999/100))) = fl (1999/100) := by
  rw [fl_1999_100]
  unfold encodeAmount f32trunc
  rw [fl_1999_100_mul100]
  have hfloor : (⌊(1999:ℚ)⌋).toNat = 1999 := by
    have : ⌊(1999:ℚ)⌋ = 1999 := by norm_num
    rw [this]
    decide
  rw [hfloor]
  have hread : readIntS (w32 1999) = (1999, []) := by
    have := readIntS_w32 1999 (by norm_num) []
    rwa [List.append_nil] at this
  unfold decodeAmount
  rw [hread]
  have hcast : (((1999:ℕ), ([]:List ℕ)).1 : ℚ) = (1999 : ℚ) := by norm_num
  rw [hcast, fl_exact _ repF32_1999]
  exact fl_1999_100

/- The Amount counterexample chain: v = 2684357.25 = 10737429/4 is a
   binary32 value and exactly 268435725 hundredths, but 268435725 needs 28
   significand bits, so the float32 multiplication by 100 rounds it to
   268435712 and the decoded value is 2684357. -/

theorem fl_cex_encode : fl ((10737429:ℚ)/4 * 100) = 268435712 := by
  have h := fl_eq_of ((10737429:ℚ)/4 * 100) 28 8388616 (by norm_num) (by norm_num)
    (by norm_num) (by norm_num)
    (rne_eq_low _ 8388616 (by norm_num) (by norm_num))
  rw [h]
  norm_num

theorem repF32_cex_mid : repF32 ((268435712 : ℕ) : ℚ) := by
  refine Or.inr ⟨8388616, 28, by norm_num, by norm_num, by norm_num, by norm_num, ?_⟩
  norm_num

theorem fl_cex_decode : fl ((268435712:ℚ) / 100) = 2684357 := by
  have h := fl_eq_of ((268435712:ℚ) / 100) 21 10737428 (by norm_num) (by norm_num)
    (by norm_num) (by norm_num)
    (rne_eq_low _ 10737428 (by norm_num) (by norm_num))
  rw [h]
  norm_num

theorem amount_cex :
    decodeAmount (encodeAmount ((10737429:ℚ)/4)) = 2684357 := by
  unfold encodeAmount f32trunc
  rw [fl_cex_encode]
  have hfloor : (⌊(268435712:ℚ)⌋).toNat = 268435712 := by
    have : ⌊(268435712:ℚ)⌋ = 268435712 := by norm_num
    rw [this]
    decide
  rw [hfloor]
  have hread : readIntS (w32 268435712) = (268435712, []) := by
    have := readIntS_w32 268435712 (by norm_num) []
    rwa [List.append_nil] at this
  unfold decodeAmount
  rw [hread]
  have hcast : (((268435712:ℕ), ([]:List ℕ)).1 : ℚ) = ((268435712 : ℕ) : ℚ) := rfl
  rw [hcast, fl_exact _ repF32_cex_mid]
  have : (((268435712 : ℕ) : ℚ)) / 100 = (268435712:ℚ) / 100 := by norm_num
  rw [this]
  exact fl_cex_decode

/-- Claim C1 (amended): for every registered command tag and message
instance whose fields lie in the encodable domain - bytes below 256,
32-bit values below 2^32, text of byte length at most 254, card lists of
at most 255 pairs, and amounts that are binary32 values whose hundredfold
is an exactly representable integer below 2^32 - writeMessage followed by
ReadMsg succeeds and returns the same tag and an equal field list,
consuming the whole frame. -/
theorem C1_roundTrip (t : ℕ) (fts : List FType) (vs : List FVal)
    (hreg : msgTypes t = some fts) (hv : validVals fts vs) :
    ReadMsg (writeMessage (.cmd t :: vs)) = ((none, t, some vs), []) :=
  readMsg_writeMessage t fts vs hreg hv

/-- Witness for C1: a concrete NOTIFY_CHAT message round-trips. -/
theorem C1_roundTrip_witness :
    validVals [FType.id, FType.id, FType.text]
      [FVal.id 1, FVal.id 2, FVal.text [104, 105]] ∧
    ReadMsg (writeMessage [.cmd 43, .id 1, .id 2, .text [104, 105]])
      = ((none, 43, some [FVal.id 1, FVal.id 2, FVal.text [104, 105]]), []) := by
  have hv : validVals [FType.id, FType.id, FType.text]
      [FVal.id 1, FVal.id 2, FVal.text [104, 105]] := by
    norm_num [validVals, validVal]
  exact ⟨hv, C1_roundTrip 43 _ _ rfl hv⟩

/-- Counterexample to C1 as stated: a NOTIFY_CHAT message whose text field
has byte length 255 - inside the claimed domain of text lengths 0-255 -
does not round-trip: decoding the written frame fails with the too-long
error (the uint8 overflow in readString's consumed count loses 256 bytes
of accounting), so no message instance is returned at all. -/
theorem C1_cex :
    (ReadMsg (writeMessage [.cmd 43, .id 5, .id 6, .text (List.replicate 255 98)])).1.1
        = some (.tooLong 43) ∧
    (ReadMsg (writeMessage [.cmd 43, .id 5, .id 6, .text (List.replicate 255 98)])).1.2.2
        = none := by
  constructor <;> decide

/-- Claim C2 (code bug): the short-frame check is dead code.  A frame
declaring 2 bytes for a YOU_ARE message (which needs 5) does not fail
with the "message too short" error: the uint16 size counter underflows,
the reader consumes 4 bytes (past the frame boundary), and the error
reported is "message too long".  Moreover no ReadMsg result ever carries
the too-short error, because `size < 0` is false for a uint16. -/
theorem C2_shortFrame :
    ReadMsg [0, 2, 31, 9, 1, 2, 3] = ((some (.tooLong 31), 31, none), []) ∧
    ∀ (s : List ℕ) (c : ℕ), (ReadMsg s).1.1 ≠ some (.tooShort c) := by
  refine ⟨by decide, ?_⟩
  intro s c
  rcases s with _ | ⟨b0, s'⟩
  · simp [ReadMsg]
  rcases s' with _ | ⟨b1, s0⟩
  · simp [ReadMsg]
  rcases hb : readByteS s0 with ⟨cb, s1⟩
  rcases hm : msgTypes cb with _ | fts
  · simp [ReadMsg, hb, hm]
  · have hloop := readLoop_none cb fts (sub16 (b0 * 256 + b1) 1) s1
    rcases hl : readLoop cb fts (sub16 (b0 * 256 + b1) 1) s1 with ⟨e, vs, size2, s2⟩
    rw [hl] at hloop
    replace hloop : e = none := hloop
    subst hloop
    simp only [ReadMsg, hb, hm, hl]
    by_cases hs : size2 > 0
    · simp [hs]
    · simp [hs]

/-- Claim C3 (amended): the Amount encode/decode pair is an exact inverse
for every amount that is a binary32 value whose hundredfold is an integer
below 2^32 itself exactly representable in binary32; and the particular
amount float32(19.99) round-trips to exactly itself (hence repeated
round-trips are idempotent on it). -/
theorem C3_amount :
    (∀ q : ℚ, amountOk q → decodeAmount (encodeAmount q) = q) ∧
    decodeAmount (encodeAmount (fl (1999/100))) = fl (1999/100) :=
  ⟨amount_roundTrip, roundTrip_fl1999⟩

/-- Witness for C3: the amount 0.25 (= 25 hundredths) is in the domain and
round-trips. -/
theorem C3_amount_witness :
    amountOk (1/4) ∧ decodeAmount (encodeAmount (1/4)) = 1/4 := by
  have hok : amountOk (1/4) := by
    constructor
    · refine Or.inr ⟨8388608, -2, by norm_num, by norm_num, by norm_num, by norm_num, ?_⟩
      norm_num
    · refine ⟨25, by norm_num, ?_, by norm_num⟩
      refine Or.inr ⟨13107200, 4, by norm_num, by norm_num, by norm_num, by norm_num, ?_⟩
      norm_num
  exact ⟨hok, C3_amount.1 (1/4) hok⟩

/-- Counterexample to C3 as stated: the amount 2684357.25 is exactly an
integer number of hundredths (268435725) and is itself a binary32 value,
yet encoding and decoding it yields 2684357, not 2684357.25: the float32
multiplication by 100 rounds 268435725 (which needs 28 significand bits)
down to 268435712. -/
theorem C3_cex :
    ((10737429:ℚ)/4) * 100 = ((268435725 : ℕ) : ℚ) ∧
    repF32 ((10737429:ℚ)/4) ∧
    decodeAmount (encodeAmount ((10737429:ℚ)/4)) = 2684357 ∧
    (2684357 : ℚ) ≠ (10737429:ℚ)/4 := by
  refine ⟨by norm_num, ?_, amount_cex, by norm_num⟩
  refine Or.inr ⟨10737429, 21, by norm_num, by norm_num, by norm_num, by norm_num, ?_⟩
  norm_num

/-- Claim C4 (code bug): a 255-byte text field does not round-trip.
readString reads all 256 bytes and recovers the text, but reports a
consumed count of uint16(size + 1) with size + 1 computed in uint8, i.e.
0 instead of 256; the enclosing NOTIFY_CHAT frame is then rejected with
the "message too long" error instead of decoding successfully. -/
theorem C4_text255 :
    readStringS (255 :: List.replicate 255 97) = (List.replicate 255 97, 0, []) ∧
    ReadMsg (writeMessage [.cmd 43, .id 1, .id 2, .text (List.replicate 255 97)])
      = ((some (.tooLong 43), 43, none), []) := by
  constructor <;> decide

/-- Claim C5 (amended): WriteLogin("alice", "secret") emits
00 0E 01 05 61 6C 69 63 65 06 73 65 63 72 65 74 - declared length 14,
because the length covers the tag byte plus both length-prefixed texts
(1 + 6 + 7), not 13 as the spec's scenario lists.  Decoding that frame
returns tag LOGIN (1) but fails with the unknown-command error, because
LOGIN is an outbound-only command with no msgTypes entry, leaving the
stream right after the tag byte. -/
theorem C5_login :
    WriteLogin [97, 108, 105, 99, 101] [115, 101, 99, 114, 101, 116]
      = [0, 14, 1, 5, 97, 108, 105, 99, 101, 6, 115, 101, 99, 114, 101, 116] ∧
    ReadMsg [0, 14, 1, 5, 97, 108, 105, 99, 101, 6, 115, 101, 99, 114, 101, 116]
      = ((some (.unknownCmd 1), 1, none),
         [5, 97, 108, 105, 99, 101, 6, 115, 101, 99, 114, 101, 116]) := by
  constructor <;> decide

/-- Counterexample to C5 as stated: the encoder does not produce the
claimed byte sequence (the length prefix is 00 0E, not 00 0D), and
decoding the claimed sequence 00 0D ... yields the unknown-command error
with no message instance, not a decoded LOGIN. -/
theorem C5_cex :
    WriteLogin [97, 108, 105, 99, 101] [115, 101, 99, 114, 101, 116]
      ≠ [0, 13, 1, 5, 97, 108, 105, 99, 101, 6, 115, 101, 99, 114, 101, 116] ∧
    (ReadMsg [0, 13, 1, 5, 97, 108, 105, 99, 101, 6, 115, 101, 99, 114, 101, 116]).1.1
      = some (.unknownCmd 1) ∧
    (ReadMsg [0, 13, 1, 5, 97, 108, 105, 99, 101, 6, 115, 101, 99, 114, 101, 116]).1.2.2
      = none := by
  refine ⟨by decide, by decide, by decide⟩

/-- Claim C6 (amended): for every frame bearing an unregistered command
tag, ReadMsg fails with the unknown-command error carrying the tag, but
leaves the byte source positioned immediately after the tag byte: the
remaining declared-length bytes are NOT consumed. -/
theorem C6_unknownTag (d t : ℕ) (payload : List ℕ) (h : msgTypes t = none) :
    ReadMsg (w16 d ++ t :: payload) = ((some (.unknownCmd t), t, none), payload) :=
  readMsg_unknown d t payload h

/-- Witness for C6: a concrete unregistered-tag frame. -/
theorem C6_unknownTag_witness :
    msgTypes 19 = none ∧
    ReadMsg (w16 7 ++ 19 :: [5, 6, 7]) = ((some (.unknownCmd 19), 19, none), [5, 6, 7]) :=
  ⟨rfl, C6_unknownTag 7 19 [5, 6, 7] rfl⟩

/-- Counterexample to C6 as stated: a frame declaring 5 bytes with unknown
tag 19 leaves 4 unconsumed payload bytes in the source, so the source is
NOT positioned after the declared-length bytes (which would leave []). -/
theorem C6_cex :
    ReadMsg [0, 5, 19, 1, 2, 3, 4] = ((some (.unknownCmd 19), 19, none), [1, 2, 3, 4]) ∧
    ([1, 2, 3, 4] : List ℕ) ≠ [] := by
  constructor <;> decide

/-- Claim C7 (code bug): encoding a 256-byte text does not fail fast.
Text.write emits the length prefix uint8(len) = 0 (256 mod 256) and then
still writes all 256 payload bytes, producing exactly the forbidden
output in which the length prefix disagrees with the written payload. -/
theorem C7_textOverflow :
    fieldWrite (.text (List.replicate 256 97)) = 0 :: List.replicate 256 97 ∧
    (List.replicate 256 97).length = 256 := by
  constructor <;> decide

/-- Claim C8: a frame whose declared length exceeds the tag byte plus the
consumed-byte total of its schema's fields fails with the "message too
long" error after all fields are decoded, and no message is returned. -/
theorem C8_longFrame (t : ℕ) (fts : List FType) (s : List ℕ) (declared : ℕ)
    (hreg : msgTypes t = some fts) (hd : declared ≤ 65535)
    (hlt : (readFields fts s).2.1 + 1 < declared) :
    ReadMsg (w16 declared ++ t :: s)
      = ((some (.tooLong t), t, none), (readFields fts s).2.2) :=
  readMsg_long t fts s declared hreg hd hlt

/-- Witness for C8: a YOU_ARE frame declaring 6 bytes with one trailing
byte beyond the 4-byte Id field. -/
theorem C8_longFrame_witness :
    (readFields [FType.id] [0, 0, 0, 1, 9]).2.1 + 1 < 6 ∧
    ReadMsg (w16 6 ++ 31 :: [0, 0, 0, 1, 9])
      = ((some (.tooLong 31), 31, none), (readFields [FType.id] [0, 0, 0, 1, 9]).2.2) :=
  ⟨by decide, C8_longFrame 31 [FType.id] [0, 0, 0, 1, 9] 6 rfl (by norm_num) (by decide)⟩

/-- Claim C9 (code bug): a source that is exhausted mid-frame is not
reported.  The frame [0, 5, 31, 0, 0] declares 5 bytes but the source
ends after two payload bytes; readInt's binary.Read error is ignored, the
Id field is zero-filled, the nominal consumed count of 4 balances the
declared size, and ReadMsg returns SUCCESS with a garbage MsgYouAre
instead of propagating the I/O failure. -/
theorem C9_eofSwallowed :
    ReadMsg [0, 5, 31, 0, 0] = ((none, 31, some [FVal.id 0]), []) := by
  decide

/-- Claim C10: PLAYER_INFO (tag 19) has a declared shape MsgPlayerInfo but
no msgTypes entry, so every PLAYER_INFO frame fails with the
unknown-command error and no message instance is ever produced. -/
theorem C10_playerInfo :
    msgTypes 19 = none ∧
    ∀ (d : ℕ) (payload : List ℕ),
      ReadMsg (w16 d ++ 19 :: payload) = ((some (.unknownCmd 19), 19, none), payload) :=
  ⟨rfl, fun d payload => readMsg_unknown d 19 payload rfl⟩

end OpenPoker
